import Mathlib

/-!
# Verification of the `json-schema-llm` provider-compatibility core

Shallow embedding of the pipeline code in
`crates/jsonschema-llm-core/src/passes/p9_provider_compat.rs` and
`crates/jsonschema-llm-core/src/passes/p7_constraints.rs`, together with
theorems settling the specification claims about them.

JSON values are modelled with numbers as `Int` (no claim depends on
non-integral numerics); `serde_json::Map` is modelled as an association
list with first-match lookup.
-/

set_option maxRecDepth 4000

namespace JsonSchemaLLM

/-- A JSON value (`serde_json::Value`), numbers modelled as `Int`. -/
inductive Json where
  | null
  | bool (b : Bool)
  | num (n : Int)
  | str (s : String)
  | arr (elems : List Json)
  | obj (fields : List (String × Json))
deriving Inhabited

mutual

/-- Decidable structural equality on JSON values. -/
def Json.decEq : (a b : Json) → Decidable (a = b)
  | .null, .null => isTrue rfl
  | .bool a, .bool b =>
      if h : a = b then isTrue (by rw [h])
      else isFalse (fun hh => h (Json.bool.inj hh))
  | .num a, .num b =>
      if h : a = b then isTrue (by rw [h])
      else isFalse (fun hh => h (Json.num.inj hh))
  | .str a, .str b =>
      if h : a = b then isTrue (by rw [h])
      else isFalse (fun hh => h (Json.str.inj hh))
  | .arr xs, .arr ys =>
      match Json.decEqArr xs ys with
      | isTrue h => isTrue (by rw [h])
      | isFalse h => isFalse (fun hh => h (Json.arr.inj hh))
  | .obj fs, .obj gs =>
      match Json.decEqObj fs gs with
      | isTrue h => isTrue (by rw [h])
      | isFalse h => isFalse (fun hh => h (Json.obj.inj hh))
  | .null, .bool _ => isFalse nofun
  | .null, .num _ => isFalse nofun
  | .null, .str _ => isFalse nofun
  | .null, .arr _ => isFalse nofun
  | .null, .obj _ => isFalse nofun
  | .bool _, .null => isFalse nofun
  | .bool _, .num _ => isFalse nofun
  | .bool _, .str _ => isFalse nofun
  | .bool _, .arr _ => isFalse nofun
  | .bool _, .obj _ => isFalse nofun
  | .num _, .null => isFalse nofun
  | .num _, .bool _ => isFalse nofun
  | .num _, .str _ => isFalse nofun
  | .num _, .arr _ => isFalse nofun
  | .num _, .obj _ => isFalse nofun
  | .str _, .null => isFalse nofun
  | .str _, .bool _ => isFalse nofun
  | .str _, .num _ => isFalse nofun
  | .str _, .arr _ => isFalse nofun
  | .str _, .obj _ => isFalse nofun
  | .arr _, .null => isFalse nofun
  | .arr _, .bool _ => isFalse nofun
  | .arr _, .num _ => isFalse nofun
  | .arr _, .str _ => isFalse nofun
  | .arr _, .obj _ => isFalse nofun
  | .obj _, .null => isFalse nofun
  | .obj _, .bool _ => isFalse nofun
  | .obj _, .num _ => isFalse nofun
  | .obj _, .str _ => isFalse nofun
  | .obj _, .arr _ => isFalse nofun

/-- Decidable structural equality on JSON arrays. -/
def Json.decEqArr : (xs ys : List Json) → Decidable (xs = ys)
  | [], [] => isTrue rfl
  | x :: xs, y :: ys =>
      match Json.decEq x y, Json.decEqArr xs ys with
      | isTrue h1, isTrue h2 => isTrue (by rw [h1, h2])
      | isFalse h1, _ => isFalse (fun hh => h1 (List.cons.inj hh).1)
      | _, isFalse h2 => isFalse (fun hh => h2 (List.cons.inj hh).2)
  | [], _ :: _ => isFalse nofun
  | _ :: _, [] => isFalse nofun

/-- Decidable structural equality on JSON object field lists. -/
def Json.decEqObj : (fs gs : List (String × Json)) → Decidable (fs = gs)
  | [], [] => isTrue rfl
  | (k1, v1) :: fs, (k2, v2) :: gs =>
      if hk : k1 = k2 then
        match Json.decEq v1 v2, Json.decEqObj fs gs with
        | isTrue hv, isTrue ht => isTrue (by rw [hk, hv, ht])
        | isFalse hv, _ =>
            isFalse (fun hh => hv (congrArg Prod.snd (List.cons.inj hh).1))
        | _, isFalse ht => isFalse (fun hh => ht (List.cons.inj hh).2)
      else isFalse (fun hh => hk (congrArg Prod.fst (List.cons.inj hh).1))
  | [], _ :: _ => isFalse nofun
  | _ :: _, [] => isFalse nofun

end

instance : DecidableEq Json := Json.decEq

/-- First-match lookup in an object's field list (`serde_json::Map::get`). -/
def lookupField : List (String × Json) → String → Option Json
  | [], _ => none
  | (k', v) :: rest, k => if k' = k then some v else lookupField rest k

/-- `Value::get` on an object; `None` for any non-object. -/
def Json.get : Json → String → Option Json
  | .obj fs, k => lookupField fs k
  | _, _ => none

/-- `Value::as_str`. -/
def Json.asStr : Json → Option String
  | .str s => some s
  | _ => none

/-- `Value::is_object`. -/
def Json.isObject : Json → Bool
  | .obj _ => true
  | _ => false

/-- `Value::is_boolean`. -/
def Json.isBool : Json → Bool
  | .bool _ => true
  | _ => false

/-- Conversion target (`config::Target`). -/
inductive Target where
  | OpenaiStrict
  | Claude
  | Gemini
deriving DecidableEq

/-- Conversion mode (`config::Mode`). -/
inductive Mode where
  | Strict
  | Lenient
deriving DecidableEq

/-- Conversion options (`config::ConvertOptions`), restricted to the fields
the embedded passes read. -/
structure ConvertOptions where
  target : Target
  mode : Mode
  maxDepth : Nat
  enumDefaultFirst : Bool
deriving DecidableEq

/-- Advisory provider-compatibility errors (`error::ProviderCompatError`). -/
inductive ProviderCompatError where
  | RootTypeIncompatible (actualType : String) (target : Target) (hint : String)
  | DepthBudgetExceeded (actualDepth maxDepth : Nat) (target : Target) (hint : String)
  | MixedEnumTypes (path : String) (typesFound : List String) (target : Target) (hint : String)
  | UnconstrainedSchema (path : String) (schemaKind : String) (target : Target) (hint : String)
deriving DecidableEq

/-- Codec transform entries (`codec::Transform`), the variants the embedded
passes emit. -/
inductive Transform where
  | RootObjectWrapper (path wrapperKey : String)
  | ConstToEnum (path : String)
  | EnumReordered (path : String) (originalOrder : List Json)
deriving DecidableEq

/-- A dropped-constraint codec entry (`codec::DroppedConstraint`). -/
structure DroppedConstraint where
  path : String
  constraint : String
  value : Json
  reason : String
deriving DecidableEq

/-- Modelled from the spec: `schema_utils::build_path` is not under `src/`;
per §4.1 a child path is the parent path with `/` plus the segment appended,
once per segment. -/
def buildPath (path : String) (segs : List String) : String :=
  segs.foldl (fun acc s => acc ++ "/" ++ s) path

/-! ## Pass 9 — provider compatibility (`p9_provider_compat.rs`) -/

/-- OpenAI Strict Mode maximum nesting depth (`OPENAI_MAX_DEPTH`). -/
def OPENAI_MAX_DEPTH : Nat := 5

/-- Hard guard against infinite recursion in traversal (`HARD_RECURSION_LIMIT`). -/
def HARD_RECURSION_LIMIT : Nat := 100

/-- Result of provider compatibility checks (`ProviderCompatResult`). -/
structure ProviderCompatResult where
  schema : Json
  transforms : List Transform
  errors : List ProviderCompatError
deriving DecidableEq

/-- `json_type_name`: the JSON type name of a value. -/
def jsonTypeName : Json → String
  | .null => "null"
  | .bool _ => "boolean"
  | .num _ => "number"
  | .str _ => "string"
  | .arr _ => "array"
  | .obj _ => "object"

/-- Lexicographic order on character lists by code point — the model of
Rust's `&str` ordering (the strings compared here are ASCII, where
code-point order and byte order agree). -/
def charListLt : List Char → List Char → Bool
  | [], [] => false
  | [], _ :: _ => true
  | _ :: _, [] => false
  | c :: cs, d :: ds =>
      if c.val < d.val then true
      else if d.val < c.val then false
      else charListLt cs ds

/-- String version of `charListLt`. -/
def strLtB (a b : String) : Bool :=
  charListLt a.data b.data

/-- Ordered insertion into a sorted, duplicate-free list — the effect of
`BTreeSet::insert` on the model of a `BTreeSet<&str>` as its sorted element
list. -/
def insertSorted (s : String) : List String → List String
  | [] => [s]
  | t :: rest =>
      if strLtB s t then s :: t :: rest
      else if s = t then t :: rest
      else t :: insertSorted s rest

/-- The sorted set of JSON type names of a list of values (the `BTreeSet`
built by `check_enum_homogeneity`). -/
def typesFoundOf (values : List Json) : List String :=
  values.foldl (fun acc v => insertSorted (jsonTypeName v) acc) []

/-- `check_enum_homogeneity`: emit `MixedEnumTypes` when an enum's values
span more than one JSON type. -/
def checkEnumHomogeneity (values : List Json) (path : String) (target : Target) :
    List ProviderCompatError :=
  if values = [] then []
  else
    let types := typesFoundOf values
    if 1 < types.length then
      [.MixedEnumTypes path types target
        "OpenAI Strict Mode requires all enum values to be the same type."]
    else []

/-- `CONTENT_KEYWORDS`: keywords that indicate a schema has actual content
constraints. -/
def CONTENT_KEYWORDS : List String :=
  ["type", "properties", "items", "prefixItems", "enum", "const",
   "anyOf", "oneOf", "allOf", "$ref", "not", "if", "then", "else",
   "pattern", "minimum", "maximum", "minLength", "maxLength",
   "minItems", "maxItems", "format"]

/-- `is_unconstrained`: true when a schema object is empty or has no
content keyword among its keys. -/
def isUnconstrained (fs : List (String × Json)) : Bool :=
  if fs = [] then true
  else ! fs.any (fun kv => CONTENT_KEYWORDS.contains kv.1)

/-- Pair list elements with their indices starting at `n`
(`Iterator::enumerate`). -/
def enumIdx : List Json → Nat → List (Nat × Json)
  | [], _ => []
  | x :: xs, i => (i, x) :: enumIdx xs (i + 1)

/-- The children at a keyword holding a map of named sub-schemas
(`properties`, `$defs`, `definitions` blocks of `CompatVisitor::visit`):
one `(path, child)` pair per entry, in entry order. -/
def mapChildren (fs : List (String × Json)) (path : String) (kw : String) :
    List (String × Json) :=
  match lookupField fs kw with
  | some (.obj m) => m.map (fun kv => (buildPath path [kw, kv.1], kv.2))
  | _ => []

/-- The children at a keyword holding an array of sub-schemas
(`prefixItems`, `anyOf`, `oneOf`, `allOf` blocks of
`CompatVisitor::visit`): one `(path, child)` pair per index. -/
def idxChildren (fs : List (String × Json)) (path : String) (kw : String) :
    List (String × Json) :=
  match lookupField fs kw with
  | some (.arr xs) =>
      (enumIdx xs 0).map (fun iv => (buildPath path [kw, toString iv.1], iv.2))
  | _ => []

/-- The child at a keyword holding a single sub-schema, visited when it is
an object or a boolean (the `items` block of `CompatVisitor::visit`). -/
def schemaChild (fs : List (String × Json)) (path : String) (kw : String) :
    List (String × Json) :=
  match lookupField fs kw with
  | some v => if v.isObject || v.isBool then [(buildPath path [kw], v)] else []
  | none => []

/-- The child at a keyword holding a single sub-schema, visited only when
it is an object (the `additionalProperties` block of
`CompatVisitor::visit`). -/
def objChild (fs : List (String × Json)) (path : String) (kw : String) :
    List (String × Json) :=
  match lookupField fs kw with
  | some v => if v.isObject then [(buildPath path [kw], v)] else []
  | none => []

/-- The child positions `CompatVisitor::visit` recurses into, with their
paths, in the order of the source's recursion blocks: `properties/*`,
`items` (object or boolean), `prefixItems/*`, `additionalProperties`
(object only), `anyOf/*`, `oneOf/*`, `allOf/*`, `$defs/*`,
`definitions/*`. -/
def compatChildren (fs : List (String × Json)) (path : String) :
    List (String × Json) :=
  mapChildren fs path "properties"
  ++ schemaChild fs path "items"
  ++ idxChildren fs path "prefixItems"
  ++ objChild fs path "additionalProperties"
  ++ idxChildren fs path "anyOf"
  ++ idxChildren fs path "oneOf"
  ++ idxChildren fs path "allOf"
  ++ mapChildren fs path "$defs"
  ++ mapChildren fs path "definitions"

/-- The advisory errors `CompatVisitor::visit` records at one object node
before recursing: the enum-homogeneity check, then the
unconstrained-sub-schema check. -/
def nodeSelfErrs (tg : Target) (fs : List (String × Json)) (path : String) :
    List ProviderCompatError :=
  (match lookupField fs "enum" with
   | some (.arr vs) => checkEnumHomogeneity vs path tg
   | _ => [])
  ++ (if path != "#" && isUnconstrained fs then
        [.UnconstrainedSchema path "empty" tg
          "Empty schemas (\x7b\x7d) accept any value and are not supported by OpenAI Strict Mode."]
      else [])

/-- `CompatVisitor::visit`. The source guards recursion with
`if depth > HARD_RECURSION_LIMIT { return; }` and always enters children at
`depth + 1`; the embedding makes the remaining allowance
`HARD_RECURSION_LIMIT + 1 - depth` an explicit fuel argument (`0` exactly
when `depth > HARD_RECURSION_LIMIT`). Returns the recorded errors in visit
order together with the subtree's maximum visited object-node depth
(`max_depth_observed`, `0` when no object node is visited). -/
def visitFuel (tg : Target) : Nat → Json → String → Nat → List ProviderCompatError × Nat
  | 0, _, _, _ => ([], 0)
  | fuel + 1, schema, path, depth =>
    match schema with
    | .bool b =>
        ([.UnconstrainedSchema path
            ("boolean(" ++ (if b then "true" else "false") ++ ")") tg
            "Boolean schemas are not supported by OpenAI Strict Mode."], 0)
    | .obj fs =>
        let rs := (compatChildren fs path).map
          (fun pc => visitFuel tg fuel pc.2 pc.1 (depth + 1))
        (nodeSelfErrs tg fs path ++ (rs.map Prod.fst).flatten,
          Nat.max depth ((rs.map Prod.snd).foldl Nat.max 0))
    | _ => ([], 0)

/-- The root `type` string `check_root_type` extracts:
`schema.get("type").and_then(as_str).unwrap_or("")`. -/
def rootTypeOf (j : Json) : String :=
  ((j.get "type").bind Json.asStr).getD ""

/-- `check_root_type`: wrap non-object roots in
`\x7b type: object, properties: \x7b result: <original> \x7d, ... \x7d`,
emitting the advisory and the transform; object roots pass unchanged. -/
def checkRootType (schema : Json) (target : Target) :
    Json × List ProviderCompatError × List Transform :=
  let rootType := rootTypeOf schema
  if rootType = "object" then (schema, [], [])
  else
    let actualType := if rootType = "" then "unspecified" else rootType
    (.obj [("type", .str "object"),
           ("properties", .obj [("result", schema)]),
           ("required", .arr [.str "result"]),
           ("additionalProperties", .bool false)],
     [.RootTypeIncompatible actualType target
        ("Schema root type \x27" ++ actualType ++
         "\x27 is not \x27object\x27. Wrapping in \x7b \"result\": <original> \x7d.")],
     [.RootObjectWrapper "#" "result"])

/-- `check_provider_compat`: active only for `(OpenaiStrict, Strict)`;
root-type enforcement, then the single-pass visitor, then the aggregated
depth-budget advisory. -/
def checkProviderCompat (schema : Json) (config : ConvertOptions) : ProviderCompatResult :=
  match config.target, config.mode with
  | .OpenaiStrict, .Strict =>
      let rt := checkRootType schema config.target
      let visited := visitFuel config.target (HARD_RECURSION_LIMIT + 1) rt.1 "#" 0
      let depthErrs :=
        if OPENAI_MAX_DEPTH < visited.2 then
          [ProviderCompatError.DepthBudgetExceeded visited.2 OPENAI_MAX_DEPTH config.target
            ("Schema nesting depth " ++ toString visited.2 ++
             " exceeds OpenAI Strict Mode limit of " ++ toString OPENAI_MAX_DEPTH ++ ".")]
        else []
      ⟨rt.1, rt.2.2, rt.2.1 ++ visited.1 ++ depthErrs⟩
  | _, _ => ⟨schema, [], []⟩

/-- Discriminator: is this a `RootTypeIncompatible` advisory? -/
def isRootTypeErr : ProviderCompatError → Bool
  | .RootTypeIncompatible .. => true
  | _ => false

/-- Discriminator: is this a `DepthBudgetExceeded` advisory? -/
def isDepthErr : ProviderCompatError → Bool
  | .DepthBudgetExceeded .. => true
  | _ => false

/-- Discriminator: is this a `MixedEnumTypes` advisory? -/
def isMixedErr : ProviderCompatError → Bool
  | .MixedEnumTypes .. => true
  | _ => false

/-- Discriminator: is this an `UnconstrainedSchema` advisory? -/
def isUncErr : ProviderCompatError → Bool
  | .UnconstrainedSchema .. => true
  | _ => false

/-- The options `(OpenaiStrict, Strict)` with the spec's defaults for the
remaining fields. -/
def openaiOpts : ConvertOptions := ⟨.OpenaiStrict, .Strict, 64, true⟩

/-! ## Example inputs from the claims -/

/-- An object schema with a single property — a nesting level in the
depth-budget test shape. -/
def wrapProp (k : String) (inner : Json) : Json :=
  .obj [("type", .str "object"), ("properties", .obj [(k, inner)])]

/-- An object nested 7 levels deep whose deepest node carries a
mixed-type enum. -/
def depth7Ex : Json :=
  wrapProp "l0" (wrapProp "l1" (wrapProp "l2" (wrapProp "l3" (wrapProp "l4"
    (wrapProp "l5" (wrapProp "l6" (.obj [("enum", .arr [.str "a", .num 1])])))))))

/-- The claim's mixed-enum example:
`\x7btype: "object", properties: \x7bc: \x7benum: ["a", 1]\x7d\x7d\x7d`. -/
def c5Ex : Json :=
  .obj [("type", .str "object"),
        ("properties", .obj [("c", .obj [("enum", .arr [.str "a", .num 1])])])]

/-- The claim's unconstrained example:
`\x7btype: "object", properties: \x7bx: \x7b\x7d\x7d\x7d`. -/
def c6Ex : Json :=
  .obj [("type", .str "object"), ("properties", .obj [("x", .obj [])])]

/-- A node carrying only structural/metadata keys
(`additionalProperties`, `required`, `description`, `title`, `$schema`). -/
def c6MetaEx : Json :=
  .obj [("type", .str "object"),
        ("properties", .obj [("x",
          .obj [("additionalProperties", .bool false),
                ("required", .arr []),
                ("description", .str "d"),
                ("title", .str "t"),
                ("$schema", .str "s")])])]

/-! ## The spec-side traversal (claim C8) -/

/-- Modelled from the spec: the `items` child positions asserted by §4.1
step 4 — a single schema, or one child per index when `items` is an array
(Draft 7 form). -/
def specItemsChildren (fs : List (String × Json)) (path : String) :
    List (String × Json) :=
  match lookupField fs "items" with
  | some (.arr xs) =>
      (enumIdx xs 0).map (fun iv => (buildPath path ["items", toString iv.1], iv.2))
  | some v => if v.isObject || v.isBool then [(buildPath path ["items"], v)] else []
  | none => []

/-- Modelled from the spec: the child-position list asserted by §4.1 step 4
(the claim under test), in the spec's order: `properties/*`,
`patternProperties/*`, `additionalProperties` (if a schema), `items`,
`prefixItems/*`, `contains`, `anyOf/*`, `oneOf/*`, `allOf/*`, `not`, `if`,
`then`, `else`, `$defs/*`, `definitions/*`, `dependentSchemas/*`,
`propertyNames`. -/
def specChildren (fs : List (String × Json)) (path : String) :
    List (String × Json) :=
  mapChildren fs path "properties"
  ++ mapChildren fs path "patternProperties"
  ++ schemaChild fs path "additionalProperties"
  ++ specItemsChildren fs path
  ++ idxChildren fs path "prefixItems"
  ++ schemaChild fs path "contains"
  ++ idxChildren fs path "anyOf"
  ++ idxChildren fs path "oneOf"
  ++ idxChildren fs path "allOf"
  ++ schemaChild fs path "not"
  ++ schemaChild fs path "if"
  ++ schemaChild fs path "then"
  ++ schemaChild fs path "else"
  ++ mapChildren fs path "$defs"
  ++ mapChildren fs path "definitions"
  ++ mapChildren fs path "dependentSchemas"
  ++ schemaChild fs path "propertyNames"

/-- Modelled from the spec: the visitor as the claim describes it — the
same per-node checks as `visitFuel`, but recursing into the spec's child
positions (`specChildren`) instead of the source's. -/
def visitSpecFuel (tg : Target) : Nat → Json → String → Nat → List ProviderCompatError × Nat
  | 0, _, _, _ => ([], 0)
  | fuel + 1, schema, path, depth =>
    match schema with
    | .bool b =>
        ([.UnconstrainedSchema path
            ("boolean(" ++ (if b then "true" else "false") ++ ")") tg
            "Boolean schemas are not supported by OpenAI Strict Mode."], 0)
    | .obj fs =>
        let rs := (specChildren fs path).map
          (fun pc => visitSpecFuel tg fuel pc.2 pc.1 (depth + 1))
        (nodeSelfErrs tg fs path ++ (rs.map Prod.fst).flatten,
          Nat.max depth ((rs.map Prod.snd).foldl Nat.max 0))
    | _ => ([], 0)

/-- A node whose `not` keyword holds an empty sub-schema: the source's
visitor does not descend into `not`, the spec's traversal does. -/
def c8Ex : Json :=
  .obj [("type", .str "object"), ("not", .obj [])]

/-- An object chain `n` levels deep ending in a node with a mixed-type
enum. -/
def deepNest : Nat → Json
  | 0 => .obj [("enum", .arr [.str "a", .num 1])]
  | n + 1 => .obj [("type", .str "object"), ("properties", .obj [("a", deepNest n)])]

/-! ## Pass 7 — constraint pruning (`p7_constraints.rs`) -/

/-- Fatal pipeline error kinds (`error::ConvertError`, §7 of the spec; the
type is not under `src/`, only its kinds are specified). -/
inductive ConvertError where
  | DepthExceeded
  | ReferenceCycle
  | RefExpansionTooLarge
  | UnsupportedRef
  | CompositionMerge
  | MalformedSchema
  | InternalInvariantViolated
deriving DecidableEq

/-- Result of the constraint pruning pass (`ConstraintPassResult`). -/
structure ConstraintPassResult where
  schema : Json
  droppedConstraints : List DroppedConstraint
deriving DecidableEq

/-- Direct embedding of `prune_constraints` as it stands in
`p7_constraints.rs`: the body is `todo!()`, which unconditionally panics on
every input, so no call produces a `ConstraintPassResult` or a structured
`ConvertError`. A panicking call is modelled as `none`. -/
def pruneConstraintsImpl (_schema : Json) (_config : ConvertOptions) :
    Option (Except ConvertError ConstraintPassResult) :=
  none

/-- Keyword capability classification (§6 capability matrix). -/
inductive Capability where
  | Supported
  | Drop
  | Rewrite
deriving DecidableEq

/-- Modelled from the spec: the capability matrix of §6 driving P7 — the
pass implementation is `todo!()` in `src/`. `const` is `Rewrite` for
OpenAI and Claude and supported on Gemini; numeric/length/item bounds,
`format` and `default` drop on OpenAI and Claude; `pattern` survives only
on OpenAI; Gemini drops `$ref`, `pattern` and conditionals (its `format`
allow-list is P8 concern, treated as supported here). -/
def capability (t : Target) (kw : String) : Capability :=
  match t with
  | .OpenaiStrict =>
      if kw = "const" then .Rewrite
      else if kw ∈ ["minimum", "maximum", "exclusiveMinimum", "exclusiveMaximum",
          "multipleOf", "minLength", "maxLength", "minItems", "maxItems",
          "uniqueItems", "format", "not", "if", "then", "else", "default"] then .Drop
      else .Supported
  | .Claude =>
      if kw = "const" then .Rewrite
      else if kw ∈ ["minimum", "maximum", "exclusiveMinimum", "exclusiveMaximum",
          "multipleOf", "minLength", "maxLength", "minItems", "maxItems",
          "uniqueItems", "format", "pattern", "not", "if", "then", "else",
          "default"] then .Drop
      else .Supported
  | .Gemini =>
      if kw ∈ ["$ref", "pattern", "not", "if", "then", "else", "default"] then .Drop
      else .Supported

/-- Remove every field with the given key. -/
def removeField (fs : List (String × Json)) (k : String) : List (String × Json) :=
  fs.filter (fun kv => kv.1 != k)

/-- Replace the value at a key, or append the pair when the key is absent. -/
def setField (fs : List (String × Json)) (k : String) (v : Json) :
    List (String × Json) :=
  if (lookupField fs k).isSome then
    fs.map (fun kv => if kv.1 = k then (k, v) else kv)
  else fs ++ [(k, v)]

/-- Modelled from the spec: the per-node logic of P7 `prune_constraints`
(§4.9) — the implementation in `src/` is `todo!()`, pinned down by the
spec's three steps, its tie-break (pruning precedes enum reordering), and
the in-file tests. Step 1 rewrites `const` to `enum: [value]` when the
capability is `Rewrite`, emitting `ConstToEnum`; pruning then drops every
keyword the matrix classifies `Drop`, emitting a `DroppedConstraint` per
key; finally, when the original node carried a `default` whose value
occurs in the surviving `enum` and `enum_default_first` is set, the enum
is reordered default-first, emitting `EnumReordered`.
`pruneStep1` is the const-rewrite step. -/
def pruneStep1 (fs : List (String × Json)) (path : String) (t : Target) :
    List (String × Json) × List Transform :=
  match lookupField fs "const" with
  | some v =>
      if capability t "const" = .Rewrite then
        (setField (removeField fs "const") "enum" (.arr [v]), [.ConstToEnum path])
      else (fs, [])
  | none => (fs, [])

/-- Modelled from the spec: step 2 of §4.9 applied after pruning (the
spec's tie-break) — reorder the surviving `enum` so the original
`default`'s value sits at index 0, keeping the remaining order. -/
def enumReorderStep (origDefault : Option Json) (kept : List (String × Json))
    (path : String) (edf : Bool) : List (String × Json) × List Transform :=
  match origDefault, lookupField kept "enum", edf with
  | some d, some (.arr vs), true =>
      if d ∈ vs then
        (setField kept "enum" (.arr (d :: vs.erase d)), [.EnumReordered path vs])
      else (kept, [])
  | _, _, _ => (kept, [])

def pruneConstraintsNode (fs : List (String × Json)) (path : String)
    (opts : ConvertOptions) :
    List (String × Json) × List DroppedConstraint × List Transform :=
  let s1 := pruneStep1 fs path opts.target
  let dropped : List DroppedConstraint :=
    (s1.1.filter (fun kv => capability opts.target kv.1 == .Drop)).map
      (fun kv => ⟨path, kv.1, kv.2, "unsupported by target"⟩)
  let kept : List (String × Json) :=
    s1.1.filter (fun kv => !(capability opts.target kv.1 == .Drop))
  let r := enumReorderStep (lookupField fs "default") kept path opts.enumDefaultFirst
  (r.1, dropped, s1.2 ++ r.2)

/-! ## Helper lemmas about the visitor's error stream -/

theorem mem_checkEnumHomogeneity_isMixed {e : ProviderCompatError} {values : List Json}
    {path : String} {tg : Target} (h : e ∈ checkEnumHomogeneity values path tg) :
    isMixedErr e = true := by
  unfold checkEnumHomogeneity at h
  split at h
  · simp at h
  · dsimp at h
    split at h
    · simp at h
      subst h
      rfl
    · simp at h

theorem mem_nodeSelfErrs {e : ProviderCompatError} {tg : Target}
    {fs : List (String × Json)} {path : String} (h : e ∈ nodeSelfErrs tg fs path) :
    isMixedErr e = true ∨ isUncErr e = true := by
  unfold nodeSelfErrs at h
  rw [List.mem_append] at h
  rcases h with h | h
  · left
    split at h
    · exact mem_checkEnumHomogeneity_isMixed h
    · simp at h
  · right
    split at h
    · simp at h
      subst h
      rfl
    · simp at h

theorem visit_mem (tg : Target) (fuel : Nat) :
    ∀ (j : Json) (path : String) (depth : Nat) (e : ProviderCompatError),
      e ∈ (visitFuel tg fuel j path depth).1 →
      isMixedErr e = true ∨ isUncErr e = true := by
  induction fuel with
  | zero =>
      intro j path depth e h
      simp [visitFuel] at h
  | succ fuel ih =>
      intro j path depth e h
      cases j with
      | bool b =>
          simp only [visitFuel, List.mem_singleton] at h
          subst h
          right
          rfl
      | obj fs =>
          simp only [visitFuel] at h
          rw [List.mem_append] at h
          rcases h with h | h
          · exact mem_nodeSelfErrs h
          · rw [List.mem_flatten] at h
            obtain ⟨l, hl, hel⟩ := h
            rw [List.mem_map] at hl
            obtain ⟨rs, hrs, rfl⟩ := hl
            rw [List.mem_map] at hrs
            obtain ⟨pc, _, rfl⟩ := hrs
            exact ih pc.2 pc.1 (depth + 1) e hel
      | null => simp [visitFuel] at h
      | num n => simp [visitFuel] at h
      | str s => simp [visitFuel] at h
      | arr xs => simp [visitFuel] at h

theorem isMixedErr_isRoot_false {e : ProviderCompatError} (h : isMixedErr e = true) :
    isRootTypeErr e = false := by
  cases e <;> simp_all [isMixedErr, isRootTypeErr]

theorem isUncErr_isRoot_false {e : ProviderCompatError} (h : isUncErr e = true) :
    isRootTypeErr e = false := by
  cases e <;> simp_all [isUncErr, isRootTypeErr]

theorem isMixedErr_isDepth_false {e : ProviderCompatError} (h : isMixedErr e = true) :
    isDepthErr e = false := by
  cases e <;> simp_all [isMixedErr, isDepthErr]

theorem isUncErr_isDepth_false {e : ProviderCompatError} (h : isUncErr e = true) :
    isDepthErr e = false := by
  cases e <;> simp_all [isUncErr, isDepthErr]

/-- The visitor itself never records a `RootTypeIncompatible` advisory. -/
theorem visit_countP_root (tg : Target) (fuel : Nat) (j : Json) (path : String) (depth : Nat) :
    ((visitFuel tg fuel j path depth).1.countP isRootTypeErr) = 0 := by
  rw [List.countP_eq_zero]
  intro e he
  rcases visit_mem tg fuel j path depth e he with h | h
  · simp [isMixedErr_isRoot_false h]
  · simp [isUncErr_isRoot_false h]

/-- The visitor itself never records a `DepthBudgetExceeded` advisory. -/
theorem visit_countP_depth (tg : Target) (fuel : Nat) (j : Json) (path : String) (depth : Nat) :
    ((visitFuel tg fuel j path depth).1.countP isDepthErr) = 0 := by
  rw [List.countP_eq_zero]
  intro e he
  rcases visit_mem tg fuel j path depth e he with h | h
  · simp [isMixedErr_isDepth_false h]
  · simp [isUncErr_isDepth_false h]

theorem rootTypeOf_eq_object_iff {j : Json} :
    rootTypeOf j = "object" ↔ j.get "type" = some (.str "object") := by
  cases hj : j.get "type" with
  | none => simp [rootTypeOf, hj]
  | some v => cases v <;> simp [rootTypeOf, hj, Json.asStr]

/-! ## Claim C1 — root-type enforcement -/

/-- C1: under `(OpenaiStrict, Strict)`, when the root `type` keyword is not
exactly the string `"object"` (absent and non-string included),
`check_provider_compat` returns the
`\x7b type: object, properties: \x7b result: <original> \x7d,
required: ["result"], additionalProperties: false \x7d` wrapper, with
exactly one `RootObjectWrapper \x7b path: "#", wrapper_key: "result" \x7d`
transform and exactly one `RootTypeIncompatible` advisory; when the root
`type` equals `"object"` the schema is returned unchanged with neither
entry. Either way the output root's `type` is `"object"`. -/
theorem c1_root_type_enforcement (j : Json) (md : Nat) (edf : Bool) :
    ((checkProviderCompat j ⟨.OpenaiStrict, .Strict, md, edf⟩).schema.get "type"
        = some (.str "object"))
    ∧ (if rootTypeOf j = "object" then
        (checkProviderCompat j ⟨.OpenaiStrict, .Strict, md, edf⟩).schema = j
        ∧ (checkProviderCompat j ⟨.OpenaiStrict, .Strict, md, edf⟩).transforms = []
        ∧ (checkProviderCompat j ⟨.OpenaiStrict, .Strict, md, edf⟩).errors.countP
            isRootTypeErr = 0
      else
        (checkProviderCompat j ⟨.OpenaiStrict, .Strict, md, edf⟩).schema
          = .obj [("type", .str "object"),
                  ("properties", .obj [("result", j)]),
                  ("required", .arr [.str "result"]),
                  ("additionalProperties", .bool false)]
        ∧ (checkProviderCompat j ⟨.OpenaiStrict, .Strict, md, edf⟩).transforms
            = [.RootObjectWrapper "#" "result"]
        ∧ (checkProviderCompat j ⟨.OpenaiStrict, .Strict, md, edf⟩).errors.countP
            isRootTypeErr = 1) := by
  by_cases hroot : rootTypeOf j = "object"
  · simp only [checkProviderCompat, checkRootType, hroot, if_true, List.nil_append,
      List.countP_append, visit_countP_root, true_and, and_true]
    refine ⟨rootTypeOf_eq_object_iff.mp hroot, ?_⟩
    split <;> simp [isRootTypeErr]
  · simp only [checkProviderCompat, checkRootType, hroot, if_false, List.countP_append,
      visit_countP_root, List.countP_cons, List.countP_nil, true_and, and_true]
    refine ⟨by simp [Json.get, lookupField], ?_⟩
    split <;> simp [isRootTypeErr]

/-! ## Claim C4 — depth budget -/

/-- The root-type entries of `check_root_type` are never depth advisories. -/
theorem checkRootType_filter_depth (j : Json) (t : Target) :
    (checkRootType j t).2.1.filter isDepthErr = [] := by
  unfold checkRootType
  by_cases h : rootTypeOf j = "object" <;> simp [h, isDepthErr]

/-- Filter form of `visit_countP_depth`. -/
theorem visit_filter_depth (tg : Target) (fuel : Nat) (j : Json) (path : String) (depth : Nat) :
    (visitFuel tg fuel j path depth).1.filter isDepthErr = [] := by
  rw [List.filter_eq_nil_iff]
  intro e he
  rcases visit_mem tg fuel j path depth e he with h | h
  · simp [isMixedErr_isDepth_false h]
  · simp [isUncErr_isDepth_false h]

/-- C4: under `(OpenaiStrict, Strict)`, `check_provider_compat` appends
exactly one aggregated `DepthBudgetExceeded` advisory precisely when the
maximum visited object-node depth exceeds `OPENAI_MAX_DEPTH = 5`, carrying
that maximum as `actual_depth` and `5` as `max_depth`; an object nested 7
levels yields exactly one such advisory with `actual_depth = 7`, and its
depth-7 node is still visited, so its mixed enum is surfaced. -/
theorem c4_depth_budget (j : Json) (md : Nat) (edf : Bool) :
    ((checkProviderCompat j ⟨.OpenaiStrict, .Strict, md, edf⟩).errors.filter isDepthErr
      = if OPENAI_MAX_DEPTH <
            (visitFuel Target.OpenaiStrict (HARD_RECURSION_LIMIT + 1)
              (checkRootType j Target.OpenaiStrict).1 "#" 0).2 then
          [.DepthBudgetExceeded
            (visitFuel Target.OpenaiStrict (HARD_RECURSION_LIMIT + 1)
              (checkRootType j Target.OpenaiStrict).1 "#" 0).2
            OPENAI_MAX_DEPTH .OpenaiStrict
            ("Schema nesting depth " ++
              toString (visitFuel Target.OpenaiStrict (HARD_RECURSION_LIMIT + 1)
                (checkRootType j Target.OpenaiStrict).1 "#" 0).2 ++
              " exceeds OpenAI Strict Mode limit of " ++ toString OPENAI_MAX_DEPTH ++ ".")]
        else [])
    ∧ ((checkProviderCompat depth7Ex openaiOpts).errors.filter isDepthErr
        = [.DepthBudgetExceeded 7 5 .OpenaiStrict
            "Schema nesting depth 7 exceeds OpenAI Strict Mode limit of 5."])
    ∧ ((checkProviderCompat depth7Ex openaiOpts).errors.countP isMixedErr = 1) := by
  refine ⟨?_, by decide, by decide⟩
  simp only [checkProviderCompat, List.filter_append, checkRootType_filter_depth,
    visit_filter_depth, List.nil_append]
  split <;> simp [isDepthErr]

/-! ## Claim C5 — enum homogeneity -/

theorem charListLt_irrefl : ∀ cs : List Char, charListLt cs cs = false
  | [] => rfl
  | c :: cs => by simp [charListLt, lt_self_iff_false, charListLt_irrefl cs]

theorem strLtB_irrefl (s : String) : strLtB s s = false :=
  charListLt_irrefl s.data

theorem insertSorted_self (a : String) : insertSorted a [a] = [a] := by
  simp [insertSorted, strLtB_irrefl]

theorem mem_insertSorted (s a : String) : ∀ l : List String,
    a ∈ insertSorted s l ↔ a = s ∨ a ∈ l := by
  intro l
  induction l with
  | nil => simp [insertSorted]
  | cons t rest ih =>
      unfold insertSorted
      by_cases h1 : strLtB s t = true
      · simp only [h1, if_true, List.mem_cons]
      · by_cases h2 : s = t
        · subst h2
          rw [if_neg h1, if_pos rfl]
          simp only [List.mem_cons]
          tauto
        · rw [if_neg h1, if_neg h2]
          simp only [List.mem_cons, ih]
          tauto

theorem mem_typesFold (a : String) : ∀ (vs : List Json) (acc : List String),
    (a ∈ vs.foldl (fun acc v => insertSorted (jsonTypeName v) acc) acc) ↔
      (a ∈ acc ∨ ∃ v ∈ vs, jsonTypeName v = a) := by
  intro vs
  induction vs with
  | nil => simp
  | cons v vs ih =>
      intro acc
      simp only [List.foldl_cons, ih, mem_insertSorted, List.mem_cons]
      constructor
      · rintro ((h | h) | ⟨w, hw, rfl⟩)
        · exact Or.inr ⟨v, Or.inl rfl, h.symm⟩
        · exact Or.inl h
        · exact Or.inr ⟨w, Or.inr hw, rfl⟩
      · rintro (h | ⟨w, (rfl | hw), rfl⟩)
        · exact Or.inl (Or.inr h)
        · exact Or.inl (Or.inl rfl)
        · exact Or.inr ⟨w, hw, rfl⟩

theorem mem_typesFoundOf (a : String) (values : List Json) :
    a ∈ typesFoundOf values ↔ ∃ v ∈ values, jsonTypeName v = a := by
  unfold typesFoundOf
  rw [mem_typesFold]
  simp

theorem typesFold_homog (a : String) : ∀ (vs : List Json) (acc : List String),
    (∀ v ∈ vs, jsonTypeName v = a) → (acc = [] ∨ acc = [a]) →
    (vs.foldl (fun acc v => insertSorted (jsonTypeName v) acc) acc = [] ∨
      vs.foldl (fun acc v => insertSorted (jsonTypeName v) acc) acc = [a]) := by
  intro vs
  induction vs with
  | nil => exact fun _ _ h => h
  | cons v vs ih =>
      intro acc hnames hacc
      have hv : jsonTypeName v = a := hnames v (List.mem_cons_self v vs)
      have hstep : insertSorted (jsonTypeName v) acc = [a] := by
        rcases hacc with rfl | rfl
        · simp [insertSorted, hv]
        · rw [hv]
          exact insertSorted_self a
      rw [List.foldl_cons, hstep]
      exact ih [a] (fun w hw => hnames w (List.mem_cons_of_mem v hw)) (Or.inr rfl)

theorem one_lt_length_of_two_mem {l : List String} {a b : String}
    (ha : a ∈ l) (hb : b ∈ l) (hne : a ≠ b) : 1 < l.length := by
  match l with
  | [] => simp at ha
  | [x] =>
      simp at ha hb
      exact absurd (ha.trans hb.symm) hne
  | x :: y :: rest => simp [List.length_cons]

/-- C5: under `(OpenaiStrict, Strict)`, `check_enum_homogeneity` emits
exactly one `MixedEnumTypes` advisory precisely when the enum's values span
more than one JSON type name; its `path` is the node's path and its
`types_found` are exactly the distinct type names of the values (sorted);
homogeneous or empty enums emit nothing; the visitor applies this check to
every visited node carrying an `enum` array; the example enum `["a", 1]`
yields exactly one `MixedEnumTypes` with `types_found = ["number",
"string"]` at `#/properties/c`. -/
theorem c5_enum_homogeneity (values : List Json) (path : String) (tg : Target) :
    ((checkEnumHomogeneity values path tg ≠ []) ↔
      ∃ v ∈ values, ∃ w ∈ values, jsonTypeName v ≠ jsonTypeName w)
    ∧ ((checkEnumHomogeneity values path tg).length ≤ 1)
    ∧ (∀ p ts t h, (ProviderCompatError.MixedEnumTypes p ts t h ∈
          checkEnumHomogeneity values path tg) →
        p = path ∧ ∀ s, s ∈ ts ↔ ∃ v ∈ values, jsonTypeName v = s)
    ∧ (∀ fs, lookupField fs "enum" = some (.arr values) →
        (nodeSelfErrs tg fs path).filter isMixedErr = checkEnumHomogeneity values path tg)
    ∧ ((checkProviderCompat c5Ex openaiOpts).errors
        = [.MixedEnumTypes "#/properties/c" ["number", "string"] .OpenaiStrict
            "OpenAI Strict Mode requires all enum values to be the same type."]) := by
  refine ⟨?_, ?_, ?_, ?_, by decide⟩
  · constructor
    · intro hne
      by_contra hhom
      push_neg at hhom
      apply hne
      unfold checkEnumHomogeneity
      rcases hval : values with _ | ⟨v0, rest⟩
      · simp
      · rw [← hval]
        have hlen : typesFoundOf values = [] ∨ typesFoundOf values = [jsonTypeName v0] := by
          apply typesFold_homog (jsonTypeName v0) values [] _ (Or.inl rfl)
          intro v hv
          exact hhom v hv v0 (hval ▸ List.mem_cons_self v0 rest)
        have : ¬ 1 < (typesFoundOf values).length := by
          rcases hlen with h | h <;> simp [h]
        simp only [this, if_false]
        split <;> simp
    · rintro ⟨v, hv, w, hw, hne⟩ habs
      have hvm : jsonTypeName v ∈ typesFoundOf values :=
        (mem_typesFoundOf _ _).mpr ⟨v, hv, rfl⟩
      have hwm : jsonTypeName w ∈ typesFoundOf values :=
        (mem_typesFoundOf _ _).mpr ⟨w, hw, rfl⟩
      have hlen : 1 < (typesFoundOf values).length :=
        one_lt_length_of_two_mem hvm hwm hne
      have hvne : values ≠ [] := by
        rintro rfl
        simp at hv
      unfold checkEnumHomogeneity at habs
      simp [hvne, hlen] at habs
  · unfold checkEnumHomogeneity
    split
    · simp
    · dsimp only
      split <;> simp
  · intro p ts t h hmem
    unfold checkEnumHomogeneity at hmem
    split at hmem
    · simp at hmem
    · dsimp only at hmem
      split at hmem
      · simp at hmem
        obtain ⟨hp, hts, _, _⟩ := hmem
        subst hp hts
        exact ⟨rfl, fun s => mem_typesFoundOf s values⟩
      · simp at hmem
  · intro fs hfs
    unfold nodeSelfErrs
    rw [hfs, List.filter_append]
    have h1 : (checkEnumHomogeneity values path tg).filter isMixedErr
        = checkEnumHomogeneity values path tg :=
      List.filter_eq_self.mpr fun e he => mem_checkEnumHomogeneity_isMixed he
    have h2 : (if path != "#" && isUnconstrained fs then
        [ProviderCompatError.UnconstrainedSchema path "empty" tg
          "Empty schemas (\x7b\x7d) accept any value and are not supported by OpenAI Strict Mode."]
      else []).filter isMixedErr = [] := by
      split <;> simp [isMixedErr]
    rw [h1, h2, List.append_nil]

/-! ## Claim C6 — unconstrained sub-schemas -/

/-- C6: under `(OpenaiStrict, Strict)`, `is_unconstrained` holds exactly
when none of the node's keys is a content keyword; every `UnconstrainedSchema`
advisory of kind `"empty"` recorded by the visitor is at a non-root path
(the root is never flagged); a sub-schema `\x7b\x7d` is flagged at
`#/properties/x`, and so is a sub-schema with only structural/metadata keys. -/
theorem c6_unconstrained (fs : List (String × Json)) :
    (isUnconstrained fs = true ↔ ∀ kv ∈ fs, kv.1 ∉ CONTENT_KEYWORDS)
    ∧ (∀ (tg : Target) (fuel : Nat) (j : Json) (path : String) (depth : Nat)
        (p : String) (t : Target) (h : String),
        (ProviderCompatError.UnconstrainedSchema p "empty" t h ∈
          (visitFuel tg fuel j path depth).1) → p ≠ "#")
    ∧ ((checkProviderCompat c6Ex openaiOpts).errors
        = [.UnconstrainedSchema "#/properties/x" "empty" .OpenaiStrict
            "Empty schemas (\x7b\x7d) accept any value and are not supported by OpenAI Strict Mode."])
    ∧ ((checkProviderCompat c6MetaEx openaiOpts).errors
        = [.UnconstrainedSchema "#/properties/x" "empty" .OpenaiStrict
            "Empty schemas (\x7b\x7d) accept any value and are not supported by OpenAI Strict Mode."]) := by
  refine ⟨?_, ?_, by decide, by decide⟩
  · unfold isUnconstrained
    by_cases hfs : fs = []
    · subst hfs
      simp
    · simp [hfs, List.any_eq_false]
  · intro tg fuel
    induction fuel with
    | zero =>
        intro j path depth p t h hmem
        simp [visitFuel] at hmem
    | succ fuel ih =>
        intro j path depth p t h hmem
        cases j with
        | bool b =>
            simp only [visitFuel, List.mem_singleton] at hmem
            cases b <;> simp at hmem
        | obj fs' =>
            simp only [visitFuel] at hmem
            rw [List.mem_append] at hmem
            rcases hmem with hmem | hmem
            · unfold nodeSelfErrs at hmem
              rw [List.mem_append] at hmem
              rcases hmem with hmem | hmem
              · exfalso
                rcases hlook : lookupField fs' "enum" with _ | v
                · rw [hlook] at hmem
                  simp at hmem
                · rw [hlook] at hmem
                  cases v with
                  | arr vs =>
                      have hx := mem_checkEnumHomogeneity_isMixed hmem
                      simp [isMixedErr] at hx
                  | null => simp at hmem
                  | bool b => simp at hmem
                  | num n => simp at hmem
                  | str s => simp at hmem
                  | obj o => simp at hmem
              · by_cases hguard : (path != "#" && isUnconstrained fs') = true
                · rw [if_pos hguard] at hmem
                  simp only [List.mem_singleton] at hmem
                  obtain ⟨hp, _, _⟩ := ProviderCompatError.UnconstrainedSchema.inj hmem
                  have hne : (path != "#") = true := (Bool.and_eq_true _ _).mp hguard |>.1
                  rw [hp]
                  simpa using hne
                · rw [if_neg hguard] at hmem
                  simp at hmem
            · rw [List.mem_flatten] at hmem
              obtain ⟨l, hl, hel⟩ := hmem
              rw [List.mem_map] at hl
              obtain ⟨rs, hrs, rfl⟩ := hl
              rw [List.mem_map] at hrs
              obtain ⟨pc, _, rfl⟩ := hrs
              exact ih pc.2 pc.1 (depth + 1) p t h hel
        | null => simp [visitFuel] at hmem
        | num n => simp [visitFuel] at hmem
        | str s => simp [visitFuel] at hmem
        | arr xs => simp [visitFuel] at hmem

/-! ## Claim C10 — boolean schema values -/

/-- C10: under `(OpenaiStrict, Strict)`, a boolean schema value visited at
any child position is reported with one `UnconstrainedSchema` advisory at
that path whose kind is `boolean(true)` or `boolean(false)`, and the
visitor returns immediately (no descent, no depth contribution); a boolean
at the root has no `type` keyword, so `check_provider_compat` wraps it and
the visitor then reports it at `#/properties/result`. -/
theorem c10_boolean_schemas (b : Bool) (tg : Target) (fuel : Nat) (path : String)
    (depth : Nat) (md : Nat) (edf : Bool) :
    (visitFuel tg (fuel + 1) (.bool b) path depth
      = ([.UnconstrainedSchema path ("boolean(" ++ (if b then "true" else "false") ++ ")") tg
           "Boolean schemas are not supported by OpenAI Strict Mode."], 0))
    ∧ ((checkProviderCompat (.bool b) ⟨.OpenaiStrict, .Strict, md, edf⟩).schema
        = .obj [("type", .str "object"),
                ("properties", .obj [("result", .bool b)]),
                ("required", .arr [.str "result"]),
                ("additionalProperties", .bool false)])
    ∧ ((checkProviderCompat (.bool b) ⟨.OpenaiStrict, .Strict, md, edf⟩).transforms
        = [.RootObjectWrapper "#" "result"])
    ∧ ((checkProviderCompat (.bool b) ⟨.OpenaiStrict, .Strict, md, edf⟩).errors
        = [.RootTypeIncompatible "unspecified" .OpenaiStrict
            "Schema root type \x27unspecified\x27 is not \x27object\x27. Wrapping in \x7b \"result\": <original> \x7d.",
           .UnconstrainedSchema "#/properties/result"
             ("boolean(" ++ (if b then "true" else "false") ++ ")") .OpenaiStrict
             "Boolean schemas are not supported by OpenAI Strict Mode."]) := by
  refine ⟨rfl, ?_, ?_, ?_⟩ <;> cases b <;> rfl

/-! ## Claim C8 — traversal child positions -/

theorem mem_enumIdx {x : Json} {i : Nat} : ∀ (xs : List Json) (n : Nat),
    ((i, x) ∈ enumIdx xs n) ↔ ∃ j, xs[j]? = some x ∧ i = n + j := by
  intro xs
  induction xs with
  | nil => simp [enumIdx]
  | cons y ys ih =>
      intro n
      simp only [enumIdx, List.mem_cons, ih (n + 1)]
      constructor
      · rintro (h | ⟨j, hj, rfl⟩)
        · obtain ⟨hi, hx⟩ := Prod.mk.injEq .. ▸ h
          exact ⟨0, by simp [← hx], by omega⟩
        · exact ⟨j + 1, by simpa using hj, by omega⟩
      · rintro ⟨j, hj, rfl⟩
        cases j with
        | zero =>
            left
            simp at hj
            simp [hj]
        | succ j =>
            right
            exact ⟨j, by simpa using hj, by omega⟩

theorem mem_mapChildren {fs : List (String × Json)} {path kw p : String} {c : Json} :
    ((p, c) ∈ mapChildren fs path kw) ↔
      ∃ m, lookupField fs kw = some (.obj m) ∧
        ∃ k, (k, c) ∈ m ∧ p = buildPath path [kw, k] := by
  rcases hlook : lookupField fs kw with _ | v
  · simp [mapChildren, hlook]
  · cases v with
    | obj m =>
        simp only [mapChildren, hlook, List.mem_map, Option.some.injEq, Json.obj.injEq]
        constructor
        · rintro ⟨kv, hmem, heq⟩
          rw [Prod.ext_iff] at heq
          obtain ⟨hp, hc⟩ := heq
          dsimp only at hp hc
          refine ⟨m, rfl, kv.1, ?_, hp.symm⟩
          rw [← hc]
          simpa using hmem
        · rintro ⟨m', rfl, k, hmem, hp⟩
          exact ⟨(k, c), hmem, by rw [hp]⟩
    | null => simp [mapChildren, hlook]
    | bool b => simp [mapChildren, hlook]
    | num n => simp [mapChildren, hlook]
    | str s => simp [mapChildren, hlook]
    | arr xs => simp [mapChildren, hlook]

theorem mem_idxChildren {fs : List (String × Json)} {path kw p : String} {c : Json} :
    ((p, c) ∈ idxChildren fs path kw) ↔
      ∃ (xs : List Json) (i : Nat), lookupField fs kw = some (.arr xs) ∧ xs[i]? = some c ∧
        p = buildPath path [kw, toString i] := by
  rcases hlook : lookupField fs kw with _ | v
  · simp [idxChildren, hlook]
  · cases v with
    | arr xs =>
        simp only [idxChildren, hlook, List.mem_map, Option.some.injEq, Json.arr.injEq]
        constructor
        · rintro ⟨iv, hmem, heq⟩
          rw [Prod.ext_iff] at heq
          obtain ⟨hp, hc⟩ := heq
          dsimp only at hp hc
          obtain ⟨j, hj, hij⟩ := (mem_enumIdx xs 0).mp (by simpa using hmem)
          rw [Nat.zero_add] at hij
          refine ⟨xs, j, rfl, ?_, ?_⟩
          · rw [← hc]
            exact hj
          · rw [← hp, hij]
        · rintro ⟨xs', i, rfl, hi, hp⟩
          exact ⟨(i, c), (mem_enumIdx xs 0).mpr ⟨i, hi, (Nat.zero_add i).symm⟩, by rw [hp]⟩
    | null => simp [idxChildren, hlook]
    | bool b => simp [idxChildren, hlook]
    | num n => simp [idxChildren, hlook]
    | str s => simp [idxChildren, hlook]
    | obj m => simp [idxChildren, hlook]

theorem mem_objChild {fs : List (String × Json)} {path kw p : String} {c : Json} :
    ((p, c) ∈ objChild fs path kw) ↔
      lookupField fs kw = some c ∧ c.isObject = true ∧ p = buildPath path [kw] := by
  unfold objChild
  rcases hlook : lookupField fs kw with _ | v
  · simp
  · by_cases hv : v.isObject = true
    · simp only [hv, if_true, List.mem_singleton, Prod.ext_iff, Option.some.injEq]
      constructor
      · rintro ⟨rfl, rfl⟩
        exact ⟨rfl, hv, rfl⟩
      · rintro ⟨rfl, _, rfl⟩
        exact ⟨rfl, rfl⟩
    · simp only [hv, if_false, Bool.false_eq_true, List.not_mem_nil, false_iff,
        Option.some.injEq]
      rintro ⟨rfl, hc, _⟩
      exact hv hc

theorem mem_schemaChild {fs : List (String × Json)} {path kw p : String} {c : Json} :
    ((p, c) ∈ schemaChild fs path kw) ↔
      lookupField fs kw = some c ∧ (c.isObject || c.isBool) = true ∧
        p = buildPath path [kw] := by
  unfold schemaChild
  rcases hlook : lookupField fs kw with _ | v
  · simp
  · by_cases hv : (v.isObject || v.isBool) = true
    · simp only [hv, if_true, List.mem_singleton, Prod.ext_iff, Option.some.injEq]
      constructor
      · rintro ⟨rfl, rfl⟩
        exact ⟨rfl, hv, rfl⟩
      · rintro ⟨rfl, _, rfl⟩
        exact ⟨rfl, rfl⟩
    · simp only [hv, if_false, Bool.false_eq_true, List.not_mem_nil, false_iff,
        Option.some.injEq]
      rintro ⟨rfl, hc, _⟩
      exact hv hc

/-- C8 counterexample: on a node with a `not` sub-schema, the source's
visitor and the spec's traversal disagree — the source does not descend
into `not`. -/
theorem c8_counterexample :
    visitFuel .OpenaiStrict 3 c8Ex "#" 0 ≠ visitSpecFuel .OpenaiStrict 3 c8Ex "#" 0 := by
  decide

set_option maxHeartbeats 1600000 in
/-- C8 (amended): `CompatVisitor::visit` recurses into exactly these child
positions, in this order: `properties/*`, `items` (when object or boolean),
`prefixItems/*`, `additionalProperties` (when an object), `anyOf/*`,
`oneOf/*`, `allOf/*`, `$defs/*`, `definitions/*`. It does not descend into
`patternProperties`, `contains`, `not`, `if`, `then`, `else`,
`dependentSchemas`, or `propertyNames`, and it visits `items` and
`prefixItems` before `additionalProperties`. -/
theorem c8_traversal_amended (fs : List (String × Json)) (path p : String) (c : Json)
    (tg : Target) (fuel depth : Nat) :
    (visitFuel tg (fuel + 1) (.obj fs) path depth
      = (nodeSelfErrs tg fs path ++
          (((compatChildren fs path).map
            (fun pc => visitFuel tg fuel pc.2 pc.1 (depth + 1))).map Prod.fst).flatten,
         Nat.max depth ((((compatChildren fs path).map
            (fun pc => visitFuel tg fuel pc.2 pc.1 (depth + 1))).map Prod.snd).foldl
              Nat.max 0)))
    ∧ (((p, c) ∈ compatChildren fs path) ↔
        ((∃ m, lookupField fs "properties" = some (.obj m) ∧
            ∃ k, (k, c) ∈ m ∧ p = buildPath path ["properties", k])
        ∨ (lookupField fs "items" = some c ∧ (c.isObject || c.isBool) = true ∧
            p = buildPath path ["items"])
        ∨ (∃ (xs : List Json) (i : Nat), lookupField fs "prefixItems" = some (.arr xs) ∧
            xs[i]? = some c ∧ p = buildPath path ["prefixItems", toString i])
        ∨ (lookupField fs "additionalProperties" = some c ∧ c.isObject = true ∧
            p = buildPath path ["additionalProperties"])
        ∨ (∃ kw, kw ∈ (["anyOf", "oneOf", "allOf"] : List String) ∧
            ∃ (xs : List Json) (i : Nat), lookupField fs kw = some (.arr xs) ∧
              xs[i]? = some c ∧ p = buildPath path [kw, toString i])
        ∨ (∃ kw, kw ∈ (["$defs", "definitions"] : List String) ∧
            ∃ m, lookupField fs kw = some (.obj m) ∧
              ∃ k, (k, c) ∈ m ∧ p = buildPath path [kw, k]))) := by
  refine ⟨rfl, ?_⟩
  unfold compatChildren
  simp only [List.mem_append, mem_mapChildren, mem_idxChildren, mem_objChild,
    mem_schemaChild, List.mem_cons, List.not_mem_nil, or_false, exists_eq_or_imp,
    exists_eq_left]
  simp only [or_assoc]

/-! ## Claim C9 — hard recursion limit -/

/-- Elements folded through `Nat.max` stay below a common bound. -/
theorem foldl_max_le {l : List Nat} {b : Nat} (h : ∀ x ∈ l, x ≤ b) :
    ∀ a, a ≤ b → l.foldl Nat.max a ≤ b := by
  induction l with
  | nil => exact fun a ha => ha
  | cons x xs ih =>
      intro a ha
      exact ih (fun y hy => h y (List.mem_cons_of_mem x hy))
        (Nat.max a x) (Nat.max_le.mpr ⟨ha, h x (List.mem_cons_self x xs)⟩)

/-- The visitor's observed depth is bounded by the entry depth plus the
remaining fuel: past the hard recursion limit nothing is observed. -/
theorem visit_depth_bound (tg : Target) : ∀ (fuel : Nat) (j : Json) (path : String) (d : Nat),
    (visitFuel tg fuel j path d).2 ≤ d + fuel := by
  intro fuel
  induction fuel with
  | zero =>
      intro j path d
      simp [visitFuel]
  | succ fuel ih =>
      intro j path d
      cases j with
      | obj fs =>
          simp only [visitFuel]
          refine Nat.max_le.mpr ⟨by omega, ?_⟩
          refine foldl_max_le ?_ 0 (by omega)
          intro x hx
          rw [List.mem_map] at hx
          obtain ⟨r, hr, rfl⟩ := hx
          rw [List.mem_map] at hr
          obtain ⟨pc, _, rfl⟩ := hr
          calc (visitFuel tg fuel pc.2 pc.1 (d + 1)).2 ≤ (d + 1) + fuel := ih pc.2 pc.1 (d + 1)
            _ ≤ d + (fuel + 1) := by omega
      | null => simp [visitFuel]
      | bool b => simp [visitFuel]
      | num n => simp [visitFuel]
      | str s => simp [visitFuel]
      | arr xs => simp [visitFuel]

/-- C9 counterexample: a schema nested 102 levels — deeper than
`HARD_RECURSION_LIMIT = 100` — does not fail the invocation:
`check_provider_compat` returns the full schema unchanged with advisory
errors only, and the mixed-type enum sitting at depth 102 is silently not
reported (its type mix is real: the enum values span two type names). -/
theorem c9_counterexample :
    ((checkProviderCompat (deepNest 102) openaiOpts).schema = deepNest 102)
    ∧ ((checkProviderCompat (deepNest 102) openaiOpts).errors.countP isMixedErr = 0)
    ∧ ((checkProviderCompat (deepNest 102) openaiOpts).errors.filter isDepthErr
        = [.DepthBudgetExceeded 100 5 .OpenaiStrict
            "Schema nesting depth 100 exceeds OpenAI Strict Mode limit of 5."])
    ∧ (1 < (typesFoundOf [.str "a", .num 1]).length) :=
  ⟨rfl, by decide, by decide, by decide⟩

/-- C9 (amended): the hard recursion limit of 100 is independent of
configuration, but exceeding it does not fail the invocation: the visitor
returns silently once its remaining allowance is exhausted (nodes past the
limit contribute no advisories and no observed depth), and
`check_provider_compat` still returns the root-checked schema. -/
theorem c9_hard_limit_amended (tg : Target) (j : Json) (path : String) (d fuel : Nat)
    (md : Nat) (edf : Bool) :
    (visitFuel tg 0 j path d = ([], 0))
    ∧ ((visitFuel tg fuel j path d).2 ≤ d + fuel)
    ∧ ((checkProviderCompat j ⟨.OpenaiStrict, .Strict, md, edf⟩).schema
        = (checkRootType j Target.OpenaiStrict).1) :=
  ⟨rfl, visit_depth_bound tg fuel j path d, rfl⟩

/-! ## Lookup lemmas for the field-list operations -/

theorem lookupField_mem {fs : List (String × Json)} {k : String} {v : Json}
    (h : lookupField fs k = some v) : (k, v) ∈ fs := by
  induction fs with
  | nil => simp [lookupField] at h
  | cons kv rest ih =>
      obtain ⟨k1, v1⟩ := kv
      simp only [lookupField] at h
      split at h
      · obtain rfl := Option.some.inj h
        rename_i heq
        subst heq
        exact List.mem_cons_self _ _
      · exact List.mem_cons_of_mem _ (ih h)

theorem lookupField_none_iff {fs : List (String × Json)} {k : String} :
    lookupField fs k = none ↔ ∀ x ∈ fs, x.1 ≠ k := by
  induction fs with
  | nil => simp [lookupField]
  | cons kv rest ih =>
      obtain ⟨k1, v1⟩ := kv
      simp only [lookupField, List.mem_cons]
      by_cases hk : k1 = k
      · subst hk
        rw [if_pos rfl]
        constructor
        · intro h
          exact absurd h (by simp)
        · intro h
          exact absurd rfl (h (k1, v1) (Or.inl rfl))
      · rw [if_neg hk, ih]
        constructor
        · rintro h x (rfl | hx)
          · exact hk
          · exact h x hx
        · intro h x hx
          exact h x (Or.inr hx)

theorem lookupField_append_none {a b : List (String × Json)} {k : String}
    (h : lookupField a k = none) :
    lookupField (a ++ b) k = lookupField b k := by
  induction a with
  | nil => simp
  | cons kv rest ih =>
      obtain ⟨k1, v1⟩ := kv
      simp only [lookupField, List.cons_append] at h ⊢
      split at h
      · exact absurd h (by simp)
      · rename_i hne
        rw [if_neg hne]
        exact ih h

theorem lookupField_filter_keep {fs : List (String × Json)} {k : String}
    {p : String × Json → Bool} (h : ∀ x ∈ fs, x.1 = k → p x = true) :
    lookupField (fs.filter p) k = lookupField fs k := by
  induction fs with
  | nil => simp
  | cons kv rest ih =>
      obtain ⟨k1, v1⟩ := kv
      have htail : lookupField (rest.filter p) k = lookupField rest k :=
        ih fun x hx => h x (List.mem_cons_of_mem _ hx)
      by_cases hk : k1 = k
      · rw [List.filter_cons, if_pos (h (k1, v1) (List.mem_cons_self _ _) hk)]
        simp only [lookupField, if_pos hk]
      · rw [List.filter_cons]
        split
        · simp only [lookupField, if_neg hk]
          exact htail
        · rw [htail]
          simp only [lookupField]
          rw [if_neg hk]

theorem lookupField_filter_of_none {fs : List (String × Json)} {k : String}
    {p : String × Json → Bool} (h : lookupField fs k = none) :
    lookupField (fs.filter p) k = none := by
  rw [lookupField_none_iff] at h ⊢
  intro x hx
  exact h x (List.mem_of_mem_filter hx)

theorem lookupField_filter_none {fs : List (String × Json)} {k : String}
    {p : String × Json → Bool} (h : ∀ x ∈ fs, x.1 = k → p x = false) :
    lookupField (fs.filter p) k = none := by
  rw [lookupField_none_iff]
  intro x hx hk
  have hmem := List.mem_of_mem_filter hx
  have hp := List.of_mem_filter hx
  rw [h x hmem hk] at hp
  exact absurd hp (by simp)

theorem lookupField_mapReplace_self {rest : List (String × Json)} {k : String} {v : Json}
    (hs : (lookupField rest k).isSome = true) :
    lookupField (rest.map (fun kv => if kv.1 = k then (k, v) else kv)) k = some v := by
  induction rest with
  | nil => simp [lookupField] at hs
  | cons kv tail ih =>
      obtain ⟨k1, v1⟩ := kv
      rw [List.map_cons]
      by_cases hk : k1 = k
      · have hrepl : (if (k1, v1).1 = k then (k, v) else (k1, v1)) = (k, v) := by
          simp [hk]
        rw [hrepl]
        simp [lookupField]
      · have hrepl : (if (k1, v1).1 = k then (k, v) else (k1, v1)) = (k1, v1) := by
          simp [hk]
        rw [hrepl]
        have hs2 : (lookupField tail k).isSome = true := by
          simpa [lookupField, hk] using hs
        simpa [lookupField, hk] using ih hs2

theorem lookupField_mapReplace_other {rest : List (String × Json)} {k k2 : String}
    {v : Json} (hne : k2 ≠ k) :
    lookupField (rest.map (fun kv => if kv.1 = k then (k, v) else kv)) k2
      = lookupField rest k2 := by
  induction rest with
  | nil => simp
  | cons kv tail ih =>
      obtain ⟨k1, v1⟩ := kv
      rw [List.map_cons]
      by_cases hk : k1 = k
      · have hrepl : (if (k1, v1).1 = k then (k, v) else (k1, v1)) = (k, v) := by
          simp [hk]
        rw [hrepl]
        have h1 : ¬ k = k2 := fun h => hne h.symm
        have h2 : ¬ k1 = k2 := by
          rw [hk]
          exact h1
        simp only [lookupField]
        rw [if_neg h1, if_neg h2]
        exact ih
      · have hrepl : (if (k1, v1).1 = k then (k, v) else (k1, v1)) = (k1, v1) := by
          simp [hk]
        rw [hrepl]
        simp only [lookupField]
        rw [ih]

theorem lookupField_append_single_other {fs : List (String × Json)} {k k2 : String}
    {v : Json} (hne : k2 ≠ k) :
    lookupField (fs ++ [(k, v)]) k2 = lookupField fs k2 := by
  induction fs with
  | nil =>
      simp only [List.nil_append, lookupField]
      rw [if_neg (show ¬ k = k2 from fun h => hne h.symm)]
  | cons kv tail ih =>
      obtain ⟨k1, v1⟩ := kv
      simp only [List.cons_append, lookupField]
      by_cases hk2 : k1 = k2
      · rw [if_pos hk2, if_pos hk2]
      · rw [if_neg hk2, if_neg hk2]
        exact ih

theorem lookupField_setField_self {fs : List (String × Json)} {k : String} {v : Json} :
    lookupField (setField fs k v) k = some v := by
  unfold setField
  split
  · exact lookupField_mapReplace_self (by assumption)
  · rename_i h
    rw [lookupField_append_none (Option.not_isSome_iff_eq_none.mp h)]
    simp [lookupField]

theorem lookupField_setField_other {fs : List (String × Json)} {k k2 : String} {v : Json}
    (hne : k2 ≠ k) :
    lookupField (setField fs k v) k2 = lookupField fs k2 := by
  unfold setField
  split
  · exact lookupField_mapReplace_other hne
  · exact lookupField_append_single_other hne

/-! ## Capability facts -/

theorem cap_enum_ne_drop (t : Target) : (capability t "enum" == Capability.Drop) = false := by
  cases t <;> rfl

theorem cap_default_drop (t : Target) : (capability t "default" == Capability.Drop) = true := by
  cases t <;> rfl

theorem cap_const_ne_drop (t : Target) : (capability t "const" == Capability.Drop) = false := by
  cases t <;> rfl

/-! ## Behaviour of the reorder step -/

theorem enumReorderStep_lookup_other {dflt : Option Json} {kept : List (String × Json)}
    {path : String} {edf : Bool} {k : String} (hne : k ≠ "enum") :
    lookupField (enumReorderStep dflt kept path edf).1 k = lookupField kept k := by
  unfold enumReorderStep
  split
  · split
    · exact lookupField_setField_other hne
    · rfl
  · rfl

theorem enumReorderStep_enum_singleton {dflt : Option Json} {kept : List (String × Json)}
    {path : String} {edf : Bool} {v : Json}
    (hke : lookupField kept "enum" = some (.arr [v])) :
    lookupField (enumReorderStep dflt kept path edf).1 "enum" = some (.arr [v]) := by
  unfold enumReorderStep
  rw [hke]
  rcases dflt with _ | d
  · simpa using hke
  · cases edf
    · simpa using hke
    · dsimp only
      by_cases hd : d ∈ [v]
      · rw [if_pos hd]
        have hdv : d = v := List.mem_singleton.mp hd
        subst hdv
        have herase : ([d].erase d) = [] := by simp
        rw [show (Json.arr (d :: [d].erase d)) = Json.arr [d] by rw [herase]]
        exact lookupField_setField_self
      · rw [if_neg hd]
        simpa using hke

theorem enumReorderStep_reorder {d : Json} {vs : List Json} {kept : List (String × Json)}
    {p : String} (hke : lookupField kept "enum" = some (.arr vs)) (hd : d ∈ vs) :
    (enumReorderStep (some d) kept p true).1
        = setField kept "enum" (.arr (d :: vs.erase d))
    ∧ Transform.EnumReordered p vs ∈ (enumReorderStep (some d) kept p true).2 := by
  unfold enumReorderStep
  rw [hke]
  dsimp only
  rw [if_pos hd]
  exact ⟨rfl, List.mem_singleton.mpr rfl⟩

theorem enumReorderStep_stable {d : Json} {vs : List Json} {kept : List (String × Json)}
    {path : String} (hke : lookupField kept "enum" = some (.arr vs)) :
    (enumReorderStep (some d) kept path false).1 = kept := by
  unfold enumReorderStep
  rw [hke]

/-! ## Claims C2, C3 and C7 — constraint pruning -/

/-- C3: the pipeline must never panic, but `prune_constraints` as committed
in `p7_constraints.rs` is `todo!()` — it panics unconditionally, on the
concrete failing input `{type: "string", const: "active"}` as on
every other, contradicting its own doc comment and tests. -/
theorem c3_prune_constraints_panics :
    (∀ (s : Json) (c : ConvertOptions), pruneConstraintsImpl s c = none)
    ∧ pruneConstraintsImpl (.obj [("type", .str "string"), ("const", .str "active")])
        openaiOpts = none :=
  ⟨fun _ _ => rfl, rfl⟩

/-- C2: on a node carrying `const`, the (spec-modelled) P7 per-node rewrite
removes `const` and sets `enum` to the one-element array of its value for
OpenAI Strict and Claude, emitting `ConstToEnum`; for Gemini, `const` is
preserved unchanged. -/
theorem c2_const_to_enum (fs : List (String × Json)) (path : String) (v : Json)
    (m : Mode) (md : Nat) (edf : Bool)
    (hconst : lookupField fs "const" = some v) :
    (∀ tg : Target, tg = .OpenaiStrict ∨ tg = .Claude →
      lookupField (pruneConstraintsNode fs path ⟨tg, m, md, edf⟩).1 "const" = none
      ∧ lookupField (pruneConstraintsNode fs path ⟨tg, m, md, edf⟩).1 "enum"
          = some (.arr [v])
      ∧ Transform.ConstToEnum path ∈ (pruneConstraintsNode fs path ⟨tg, m, md, edf⟩).2.2)
    ∧ (lookupField (pruneConstraintsNode fs path ⟨.Gemini, m, md, edf⟩).1 "const"
        = some v) := by
  constructor
  · intro tg htg
    have hcap : capability tg "const" = Capability.Rewrite := by
      rcases htg with rfl | rfl <;> rfl
    have hs1 : pruneStep1 fs path tg
        = (setField (removeField fs "const") "enum" (.arr [v]), [.ConstToEnum path]) := by
      unfold pruneStep1
      rw [hconst]
      dsimp only
      rw [if_pos hcap]
    have hc1 : lookupField (setField (removeField fs "const") "enum" (.arr [v]))
        "const" = none := by
      rw [lookupField_setField_other (by decide)]
      apply lookupField_filter_none
      intro x _ hxk
      simp [hxk]
    have he1 : lookupField (setField (removeField fs "const") "enum" (.arr [v]))
        "enum" = some (.arr [v]) := lookupField_setField_self
    simp only [pruneConstraintsNode, hs1]
    have hkc : lookupField
        ((setField (removeField fs "const") "enum" (.arr [v])).filter
          (fun kv => !(capability tg kv.1 == Capability.Drop))) "const" = none :=
      lookupField_filter_of_none hc1
    have hke : lookupField
        ((setField (removeField fs "const") "enum" (.arr [v])).filter
          (fun kv => !(capability tg kv.1 == Capability.Drop))) "enum"
        = some (.arr [v]) := by
      rw [lookupField_filter_keep]
      · exact he1
      · intro x _ hxk
        rw [hxk]
        simp [cap_enum_ne_drop tg]
    refine ⟨?_, ?_, ?_⟩
    · rw [enumReorderStep_lookup_other (by decide)]
      exact hkc
    · exact enumReorderStep_enum_singleton hke
    · exact List.mem_append.mpr (Or.inl (List.mem_singleton.mpr rfl))
  · have hs1 : pruneStep1 fs path .Gemini = (fs, []) := by
      unfold pruneStep1
      rw [hconst]
      dsimp only
      rw [if_neg (by decide)]
    simp only [pruneConstraintsNode, hs1]
    have hkc : lookupField
        (fs.filter (fun kv => !(capability Target.Gemini kv.1 == Capability.Drop)))
        "const" = some v := by
      rw [lookupField_filter_keep]
      · exact hconst
      · intro x _ hxk
        rw [hxk]
        simp [cap_const_ne_drop Target.Gemini]
    rw [enumReorderStep_lookup_other (by decide)]
    exact hkc

/-- C7: on a node with an `enum` array, a `default` occurring in it and no
`const`, the (spec-modelled) P7 per-node rewrite with
`enum_default_first = true` moves the default's value to index 0 keeping
the remaining order, emits `EnumReordered` and removes `default` with a
`DroppedConstraint` carrying the original value; with
`enum_default_first = false` the enum order is unchanged. -/
theorem c7_enum_default_first (fs : List (String × Json)) (path : String)
    (tg : Target) (m : Mode) (md : Nat) (vs : List Json) (d : Json)
    (hconst : lookupField fs "const" = none)
    (henum : lookupField fs "enum" = some (.arr vs))
    (hdef : lookupField fs "default" = some d)
    (hd : d ∈ vs) :
    (lookupField (pruneConstraintsNode fs path ⟨tg, m, md, true⟩).1 "enum"
      = some (.arr (d :: vs.erase d)))
    ∧ ((⟨path, "default", d, "unsupported by target"⟩ : DroppedConstraint)
        ∈ (pruneConstraintsNode fs path ⟨tg, m, md, true⟩).2.1)
    ∧ (Transform.EnumReordered path vs
        ∈ (pruneConstraintsNode fs path ⟨tg, m, md, true⟩).2.2)
    ∧ (lookupField (pruneConstraintsNode fs path ⟨tg, m, md, true⟩).1 "default" = none)
    ∧ (lookupField (pruneConstraintsNode fs path ⟨tg, m, md, false⟩).1 "enum"
      = some (.arr vs)) := by
  have hs1 : pruneStep1 fs path tg = (fs, []) := by
    unfold pruneStep1
    rw [hconst]
  have hke : lookupField
      (fs.filter (fun kv => !(capability tg kv.1 == Capability.Drop))) "enum"
      = some (.arr vs) := by
    rw [lookupField_filter_keep]
    · exact henum
    · intro x _ hxk
      rw [hxk]
      simp [cap_enum_ne_drop tg]
  have hkd : lookupField
      (fs.filter (fun kv => !(capability tg kv.1 == Capability.Drop))) "default"
      = none := by
    apply lookupField_filter_none
    intro x _ hxk
    rw [hxk]
    simp [cap_default_drop tg]
  obtain ⟨hr1, hr2⟩ := enumReorderStep_reorder (d := d) (p := path) hke hd
  refine ⟨?_, ?_, ?_, ?_, ?_⟩
  · simp only [pruneConstraintsNode, hs1]
    rw [hdef, hr1]
    exact lookupField_setField_self
  · simp only [pruneConstraintsNode, hs1]
    refine List.mem_map.mpr ⟨("default", d), ?_, rfl⟩
    refine List.mem_filter.mpr ⟨lookupField_mem hdef, ?_⟩
    simp [cap_default_drop tg]
  · simp only [pruneConstraintsNode, hs1]
    rw [hdef]
    exact List.mem_append.mpr (Or.inr hr2)
  · simp only [pruneConstraintsNode, hs1]
    rw [hdef, hr1]
    rw [lookupField_setField_other (by decide)]
    exact hkd
  · simp only [pruneConstraintsNode, hs1]
    rw [hdef, enumReorderStep_stable hke]
    exact hke

/-! ## Witnesses -/

/-- Witness for C2 at the `{type: "string", const: "active"}` node
under OpenAI Strict. -/
theorem c2_const_to_enum_witness :
    lookupField (pruneConstraintsNode [("type", .str "string"), ("const", .str "active")]
      "#" ⟨.OpenaiStrict, .Strict, 64, true⟩).1 "enum" = some (.arr [.str "active"]) :=
  ((c2_const_to_enum [("type", .str "string"), ("const", .str "active")] "#"
    (.str "active") .Strict 64 true rfl).1 .OpenaiStrict (Or.inl rfl)).2.1

/-- Witness for C5 at the mixed enum `["a", 1]`. -/
theorem c5_enum_homogeneity_witness :
    checkEnumHomogeneity [.str "a", .num 1] "#/properties/c" .OpenaiStrict ≠ [] :=
  (c5_enum_homogeneity [.str "a", .num 1] "#/properties/c" .OpenaiStrict).1.mpr
    ⟨.str "a", by decide, .num 1, by decide, by decide⟩

/-- Witness for C6: the flagged empty sub-schema's path is not the root. -/
theorem c6_unconstrained_witness : ("#/properties/x" : String) ≠ "#" :=
  (c6_unconstrained []).2.1 .OpenaiStrict 2 c6Ex "#" 0 "#/properties/x" .OpenaiStrict
    "Empty schemas ({}) accept any value and are not supported by OpenAI Strict Mode."
    (by decide)

/-- Witness for C7 at the spec's default-first example. -/
theorem c7_enum_default_first_witness :
    lookupField (pruneConstraintsNode
      [("type", .str "string"),
       ("enum", .arr [.str "alpha", .str "beta", .str "gamma"]),
       ("default", .str "beta")] "#" ⟨.OpenaiStrict, .Strict, 64, true⟩).1 "enum"
      = some (.arr [.str "beta", .str "alpha", .str "gamma"]) :=
  ((c7_enum_default_first
      [("type", .str "string"),
       ("enum", .arr [.str "alpha", .str "beta", .str "gamma"]),
       ("default", .str "beta")] "#" .OpenaiStrict .Strict 64
      [.str "alpha", .str "beta", .str "gamma"] (.str "beta")
      rfl rfl rfl (by decide)).1).trans (by decide)

end JsonSchemaLLM